import Mathlib

/-!
Verification development for the srnx RINEX parser and Succinct
Observation Container codec.  The definitions below are shallow
embeddings of the C/C++ source functions (rinex_p.c, rinex_parse.c,
transpose.c, rinex_stdio.c, rinex_analyze.cc); each definition mirrors
the control flow of the function it is named after.  Byte tapes are
modelled as `List Char` or `List Nat`, machine integers as `Nat`/`Int`
with explicit reductions mod 2^64 where C unsigned arithmetic wraps.
-/

namespace Srnx

/-- ch0 is the NUL character; reads past the end of a modelled buffer
yield NUL, matching the streams' zero padding guarantee. -/
def ch0 : Char := Char.ofNat 0

/-- isdigit models C `isdigit` on ASCII input. -/
def isdigit (c : Char) : Bool := decide (48 ≤ c.toNat) && decide (c.toNat ≤ 57)

/-- digitVal is the value of an ASCII digit character. -/
def digitVal (c : Char) : Nat := c.toNat - 48

/-- parse_uint_digits is the second loop of `parse_uint` (rinex_p.c):
every remaining character of the field must be a digit. -/
def parse_uint_digits (s : List Char) (pos : Nat) (width : Nat) (value : Nat) :
    Option Nat :=
  match width with
  | 0 => some value
  | w + 1 =>
      let c := s.getD pos ch0
      if isdigit c then parse_uint_digits s (pos + 1) w (value * 10 + digitVal c)
      else none

/-- parse_uint_skip is the first loop of `parse_uint` (rinex_p.c): skip
leading spaces, then hand over to the digit loop. -/
def parse_uint_skip (s : List Char) (pos : Nat) (width : Nat) : Option Nat :=
  match width with
  | 0 => some 0
  | w + 1 =>
      if s.getD pos ch0 = ' ' then parse_uint_skip s (pos + 1) w
      else parse_uint_digits s pos (w + 1) 0

/-- parse_uint embeds `parse_uint` from rinex_p.c: an ASCII decimal
field of `width` characters starting at `start`, leading spaces
allowed, returning `none` where the C function returns EINVAL. -/
def parse_uint (s : List Char) (start width : Nat) : Option Nat :=
  parse_uint_skip s start width

/-- Fixed is the result of the embedded `parse_fixed`: `ok v` models a
zero return with `*p_out = v`, `einval` models the EINVAL return, and
`hang` marks the inputs on which the C trailing-character loop never
terminates (it fails to advance `ii` when it sees a newline). -/
inductive Fixed where
  | ok (v : Int)
  | einval
  | hang
  deriving DecidableEq, Repr

/-- pfInt is the integer-digit loop of `parse_fixed`: the `fuel`
remaining positions before the decimal point must all hold digits.
`fuel` is `intPart - ii` of the C loop, so `fuel = 0` is its exit
condition. Returns the accumulator. -/
def pfInt (s : List Char) (start : Nat) (ii : Nat) (accum : Int) :
    Nat → Option Int
  | 0 => some accum
  | f + 1 =>
      let c := s.getD (start + ii) ch0
      if isdigit c then pfInt s start (ii + 1) (accum * 10 + (digitVal c : Int)) f
      else none

/-- pfFrac is the fractional-digit loop of `parse_fixed`: consume
digits while positions remain (`fuel` is `width - ii`), returning the
next position and the accumulator. -/
def pfFrac (s : List Char) (start : Nat) (ii : Nat) (accum : Int) :
    Nat → Nat × Int
  | 0 => (ii, accum)
  | f + 1 =>
      let c := s.getD (start + ii) ch0
      if isdigit c then pfFrac s start (ii + 1) (accum * 10 + (digitVal c : Int)) f
      else (ii, accum)

/-- pfTrail is the trailing-character loop of `parse_fixed` (`fuel` is
`width - ii`).  Each iteration multiplies the accumulator by ten; a
space advances, any other character is EINVAL, and a newline leaves
`ii` unchanged, so the C loop repeats forever: that case is reported
as `hang`. -/
def pfTrail (s : List Char) (start : Nat) (ii : Nat) (accum : Int) :
    Nat → Fixed
  | 0 => Fixed.ok accum
  | f + 1 =>
      let accum' := accum * 10
      let c := s.getD (start + ii) ch0
      if c = '\n' then Fixed.hang
      else if c = ' ' then pfTrail s start (ii + 1) accum' f
      else Fixed.einval

/-- pfSkip is the leading-space loop of `parse_fixed`, returning the
first position that is not a space (`fuel` is `intPart - ii`, so the
walk stops at `intPart`). -/
def pfSkip (s : List Char) (start : Nat) (ii : Nat) : Nat → Nat
  | 0 => ii
  | f + 1 =>
      if s.getD (start + ii) ch0 = ' ' then pfSkip s start (ii + 1) f else ii

/-- parse_fixed embeds `parse_fixed` from rinex_p.c: a signed
fixed-point field of `width` characters with `frac` fractional digits,
value returned times 10^frac.  `width - frac - 1` characters before
the decimal point, then optional digits and trailing spaces.  The
result is `hang` exactly when the C loop diverges (see `pfTrail`). -/
def parse_fixed (s : List Char) (start width frac : Nat) : Fixed :=
  let intPart := width - frac - 1
  let ii := pfSkip s start 0 intPart
  let negate := decide (ii < intPart) && decide (s.getD (start + ii) ch0 = '-')
  let ii := if negate then ii + 1 else ii
  match pfInt s start ii 0 (intPart - ii) with
  | none => Fixed.einval
  | some accum =>
      if s.getD (start + intPart) ch0 = '.' then
        let p := pfFrac s start (intPart + 1) accum (width - (intPart + 1))
        match pfTrail s start p.1 p.2 (width - p.1) with
        | Fixed.ok accum => Fixed.ok (if negate then -accum else accum)
        | r => r
      else Fixed.einval

/-- rinex_parse_obs embeds the public `rinex_parse_obs` (rinex_parse.c):
`parse_fixed(c, 14, 3)`, yielding INT64_MIN on a format error. -/
def rinex_parse_obs (s : List Char) : Fixed :=
  match parse_fixed s 0 14 3 with
  | Fixed.einval => Fixed.ok (-(2 ^ 63))
  | r => r

/-- dval embeds the DVAL macro of the scalar `rnx_parse_obs`: a space
counts as zero, anything else as its ASCII distance from the digit
zero (so a minus sign contributes 45 - 48 = -3). -/
def dval (c : Char) : Int := if c = ' ' then 0 else (c.toNat : Int) - 48

/-- rpoSpaces is the leading-space loop of the scalar `rnx_parse_obs`:
collect spaces into the staging buffer while `kk < 10` (`fuel` is
`10 - kk`). -/
def rpoSpaces (s : List Char) (pos kk : Nat) (buf : List Char) :
    Nat → Nat × Nat × List Char
  | 0 => (pos, kk, buf)
  | f + 1 =>
      if s.getD pos ch0 = ' ' then rpoSpaces s (pos + 1) (kk + 1) (buf ++ [' ']) f
      else (pos, kk, buf)

/-- rpoDigits is the digit loop of the scalar `rnx_parse_obs`: collect
digits into the staging buffer while `kk < 10` (`fuel` is `10 - kk`). -/
def rpoDigits (s : List Char) (pos kk : Nat) (buf : List Char) :
    Nat → Nat × Nat × List Char
  | 0 => (pos, kk, buf)
  | f + 1 =>
      let c := s.getD pos ch0
      if 48 ≤ c.toNat ∧ c.toNat ≤ 57 then
        rpoDigits s (pos + 1) (kk + 1) (buf ++ [c]) f
      else (pos, kk, buf)

/-- rpoTail copies buffer positions 11..15 of the scalar
`rnx_parse_obs`: a newline contributes a space without advancing the
input cursor. -/
def rpoTail (s : List Char) (pos : Nat) (buf : List Char) (n : Nat) :
    Nat × List Char :=
  match n with
  | 0 => (pos, buf)
  | m + 1 =>
      let c := s.getD pos ch0
      if c = '\n' then rpoTail s pos (buf ++ [' ']) m
      else rpoTail s (pos + 1) (buf ++ [c]) m

/-- rnx_parse_obs embeds the scalar (non-SIMD) `rnx_parse_obs` of
rinex_parse.c used by `read()` on the v2/v3 observation path.  Returns
the parsed value, the LLI and SSI bytes and the new input position, or
`none` where the C function returns NULL (bad format). -/
def rnx_parse_obs (s : List Char) (pos : Nat) :
    Option (Int × Char × Char × Nat) :=
  let r1 := rpoSpaces s pos 0 [] 10
  let r2 :=
    if r1.2.1 < 10 ∧ s.getD r1.1 ch0 = '-' then
      (r1.1 + 1, r1.2.1 + 1, r1.2.2 ++ ['-'])
    else r1
  let r3 := rpoDigits s r2.1 r2.2.1 r2.2.2 (10 - r2.2.1)
  if r3.2.1 = 10 ∧ s.getD r3.1 ch0 = '.' then
    let buf10 := r3.2.2 ++ ['.']
    let r4 := rpoTail s (r3.1 + 1) buf10 5
    let buf := r4.2
    let lli := buf.getD 14 ch0
    let ssi := buf.getD 15 ch0
    let value : Int :=
      dval (buf.getD 13 ch0)
      + 10 * dval (buf.getD 12 ch0)
      + 100 * dval (buf.getD 11 ch0)
      + 1000 * dval (buf.getD 9 ch0)
      + 10000 * dval (buf.getD 8 ch0)
      + 100000 * dval (buf.getD 7 ch0)
      + 1000000 * dval (buf.getD 6 ch0)
      + 10000000 * dval (buf.getD 5 ch0)
      + 100000000 * dval (buf.getD 4 ch0)
      + 1000000000 * dval (buf.getD 3 ch0)
      + 10000000000 * dval (buf.getD 2 ch0)
      + 100000000000 * dval (buf.getD 1 ch0)
      + 1000000000000 * dval (buf.getD 0 ch0)
    some (value, lli, ssi, r4.1)
  else none

/-- ulebLoop is the continuation loop of the `uleb128` decoder in
rinex_analyze.cc.  While the current byte has its high bit set, the
cursor advances one byte, the shift grows by 7, and the accumulator is
ASSIGNED (not or-ed) the new byte's low seven bits shifted left — as
in the C source, whose `accum = ... << shift` discards earlier groups.
The fuel argument bounds the walk by the tape length (the C loop would
read past the buffer otherwise). -/
def ulebLoop (bytes : List Nat) (fuel pos accum shift : Nat) : Nat × Nat :=
  match fuel with
  | 0 => (accum, pos)
  | f + 1 =>
      if bytes.getD pos 0 &&& 128 ≠ 0 then
        let pos' := pos + 1
        let shift' := shift + 7
        let accum' := (bytes.getD pos' 0 &&& 127) <<< shift'
        ulebLoop bytes f pos' accum' shift'
      else (accum, pos)

/-- uleb128 embeds `uleb128` from rinex_analyze.cc on a byte tape:
returns the decoded value and the final cursor position (the C
function leaves `*d` pointing at the last byte it examined). -/
def uleb128 (bytes : List Nat) (pos : Nat) : Nat × Nat :=
  ulebLoop bytes bytes.length pos (bytes.getD pos 0 &&& 127) 0

/-- sleb128 embeds `sleb128` from rinex_analyze.cc: ZigZag decoding on
top of `uleb128`. -/
def sleb128 (bytes : List Nat) (pos : Nat) : Int × Nat :=
  let r := uleb128 bytes pos
  let mag : Int := (r.1 >>> 1 : Nat)
  (if r.1 &&& 1 ≠ 0 then -mag else mag, r.2)

/-- ulebEncodeF is the reference ULEB128 encoder, written from the
Succinct_RINEX.md format description: little-endian 7-bit groups, the
high bit of every byte except the last set.  The first argument is
fuel bounding the number of continuation bytes. -/
def ulebEncodeF : Nat → Nat → List Nat
  | 0, n => [n]
  | f + 1, n =>
      if n < 128 then [n]
      else (n % 128 + 128) :: ulebEncodeF f (n / 128)

/-- ulebEncode encodes a value below 2^70 (ten 7-bit groups suffice). -/
def ulebEncode (n : Nat) : List Nat := ulebEncodeF 10 n

/-- ulebValue is the value denoted by a ULEB128 byte sequence: the sum
over the bytes of their low seven bits shifted by seven per position. -/
def ulebValue : List Nat → Nat
  | [] => 0
  | b :: rest => (b &&& 127) + 128 * ulebValue rest

/-- C7: `parse_fixed("  23619095.450  ", 14, 3)` returns
23_619_095_450 and `parse_fixed("         -.353  ", 14, 3)` returns
-353, as the spec's testable properties 6 and 7 state. -/
theorem C7_parse_fixed_examples :
    parse_fixed ((("  23619095.450  ").toList)) 0 14 3 = Fixed.ok 23619095450 ∧
    parse_fixed ((("         -.353  ").toList)) 0 14 3 = Fixed.ok (-353) := by
  constructor <;> rfl

/-- C8: the claim says `parse_fixed` terminates on every field of the
documented grammar, returning the value times 10^frac when the
fractional digits are followed by a newline before the field width is
exhausted.  The code instead loops forever there: on the field
"  2.5\n" with width 11 and frac 7 the trailing loop sees the newline
at position 5 < 11, never advances, and diverges (`Fixed.hang`),
instead of returning 25000000. -/
theorem C8_parse_fixed_newline_hangs :
    parse_fixed ((("  2.5\n").toList)) 0 11 7 = Fixed.hang ∧
    Fixed.hang ≠ Fixed.ok 25000000 := by
  exact ⟨rfl, by decide⟩

/-- C2: the claim says every observation field parsed by `read()`
equals the F14.3 value times 1000, in particular
"    -53875.632 8" gives -53875632.  The scalar `rnx_parse_obs` used
by `read()` treats the minus sign as a digit of value -3 (DVAL), so it
stores -246124368 = 53875632 - 3·10^8 for that field; the public
`rinex_parse_obs`, against which rinex_test.c checks this very vector,
returns the correct -53875632. -/
theorem C2_rnx_parse_obs_negative_field :
    rnx_parse_obs ((("    -53875.632 8").toList)) 0 =
      some (-246124368, ' ', '8', 16) ∧
    rinex_parse_obs ((("    -53875.632 8").toList)) = Fixed.ok (-53875632) ∧
    (-246124368 : Int) ≠ -53875632 := by
  exact ⟨rfl, rfl, by decide⟩

/-- C4: the claim says the `uleb128` decoder returns the sum of the
7-bit groups and leaves the cursor one byte past the encoding.  On the
valid two-byte encoding [0x81, 0x01] of 129 the decoder returns 128
(its loop overwrites the accumulator instead of or-ing into it) and
leaves the cursor on the final byte (position 1, not 2). -/
theorem C4_uleb128_drops_low_groups :
    ulebValue [129, 1] = 129 ∧
    uleb128 [129, 1] 0 = (128, 1) ∧
    ((128, 1) : Nat × Nat) ≠ (129, 2) := by
  exact ⟨rfl, rfl, by decide⟩

/-- Epoch mirrors `struct rinex_epoch` (rinex_epoch.h): decimal-coded
date and minute-of-day, seconds times 10^7, the epoch flag character,
the satellite count and the receiver clock offset times 10^12. -/
structure Epoch where
  yyyy_mm_dd : Int
  hh_mm : Int
  sec_e7 : Int
  flag : Char
  n_sats : Nat
  clock_offset : Int
  deriving DecidableEq, Repr

/-- ReadResult is the outcome of an embedded reader stage: `ok`,
RINEX_ERR_BAD_FORMAT, or divergence of the C code (`hang`, inherited
from a `parse_fixed` call that never terminates). -/
inductive ReadResult (α : Type) where
  | ok (a : α)
  | badFormat
  | hang
  deriving DecidableEq, Repr

/-- liftFixed maps an embedded `parse_fixed` outcome into a reader
stage result (EINVAL becomes RINEX_ERR_BAD_FORMAT). -/
def liftFixed (r : Fixed) : ReadResult Int :=
  match r with
  | Fixed.ok v => ReadResult.ok v
  | Fixed.einval => ReadResult.badFormat
  | Fixed.hang => ReadResult.hang

/-- rnx_read_v3_epoch embeds the epoch-header stage of `rnx_read_v3`
(rinex_parse.c): the validation `line[0] == '>' && '0' <= line[31] &&
line[31] <= '6'`, the six `parse_uint` fields, the F11.7 seconds at
column 18, the optional clock offset chosen by `line_len` (the byte
count from line start to just past the newline), and the assignments
into the epoch — including `epoch.flag = line[28]`.  The later
observation/event stages of `rnx_read_v3` never modify the epoch, so
a successful read reports exactly this record. -/
def rnx_read_v3_epoch (line : List Char) (line_len : Nat) : ReadResult Epoch :=
  let flagc := line.getD 31 ch0
  if line.getD 0 ch0 = '>' ∧ 48 ≤ flagc.toNat ∧ flagc.toNat ≤ 54 then
    match parse_uint line 2 4, parse_uint line 7 2, parse_uint line 10 2,
        parse_uint line 13 2, parse_uint line 16 2, parse_uint line 32 3 with
    | some yy, some mm, some dd, some hh, some mn, some n_sats =>
        match liftFixed (parse_fixed line 18 11 7) with
        | ReadResult.ok i64 =>
            let epoch : Epoch :=
              { yyyy_mm_dd := ((yy * 100 + mm) * 100 + dd : Nat)
                hh_mm := (hh * 100 + mn : Nat)
                sec_e7 := i64
                flag := line.getD 28 ch0
                n_sats := n_sats
                clock_offset := 0 }
            if line_len ≤ 44 then ReadResult.ok epoch
            else if line_len = 59 then
              match liftFixed (parse_fixed line 44 15 12) with
              | ReadResult.ok clk => ReadResult.ok { epoch with clock_offset := clk }
              | ReadResult.badFormat => ReadResult.badFormat
              | ReadResult.hang => ReadResult.hang
            else ReadResult.badFormat
        | ReadResult.badFormat => ReadResult.badFormat
        | ReadResult.hang => ReadResult.hang
    | _, _, _, _, _, _ => ReadResult.badFormat
  else ReadResult.badFormat

/-- ObsRecord is the output of an observation record read: the record
buffer (satellite headers and presence bitmap bytes, as byte values)
and the parallel observation, LLI and SSI arrays. -/
structure ObsRecord where
  buffer : List Nat
  obs : List Int
  lli : List Char
  ssi : List Char
  deriving DecidableEq, Repr

/-- emptyObsRecord is the record state at the start of a read. -/
def emptyObsRecord : ObsRecord := ⟨[], [], [], []⟩

/-- blank16 embeds `!memcmp(obs, blank, 16)`: sixteen spaces ahead. -/
def blank16 (s : List Char) (pos : Nat) : Bool :=
  (List.range 16).all fun k => s.getD (pos + k) ch0 = ' '

/-- popcount8 is the number of set bits among the low eight bits. -/
def popcount8 (n : Nat) : Nat :=
  (List.range 8).foldl (fun a k => a + (n >>> k) % 2) 0

/-- v3ObsLoop is the per-satellite observation loop of
`rnx_read_v3_observations` (rinex_parse.c): stop at a newline; a blank
16-byte field skips the observation via `continue` (bypassing the
presence-byte push, as the C code does); otherwise parse the field,
set bit `jj & 7` of the pending mask, and push the mask byte after
observation `jj` when `(jj & 7) == 7` or `jj + 1 == n_obs`.  `fuel` is
`n_obs - jj`; returns the loop-exit `jj`, position, pending mask and
record. -/
def v3ObsLoop (s : List Char) (nobs : Nat) (jj pos mask : Nat) (st : ObsRecord) :
    Nat → ReadResult (Nat × Nat × Nat × ObsRecord)
  | 0 => ReadResult.ok (jj, pos, mask, st)
  | f + 1 =>
      if s.getD pos ch0 = '\n' then ReadResult.ok (jj, pos, mask, st)
      else if blank16 s pos then v3ObsLoop s nobs (jj + 1) (pos + 16) mask st f
      else
        match rnx_parse_obs s pos with
        | none => ReadResult.badFormat
        | some (v, l, si, pos') =>
            let mask' := mask ||| (1 <<< (jj % 8))
            let st' : ObsRecord :=
              { st with obs := st.obs ++ [v], lli := st.lli ++ [l],
                        ssi := st.ssi ++ [si] }
            if jj % 8 = 7 ∨ jj + 1 = nobs then
              v3ObsLoop s nobs (jj + 1) pos' 0
                { st' with buffer := st'.buffer ++ [mask'] } f
            else v3ObsLoop s nobs (jj + 1) pos' mask' st' f

/-- v3MaskTail is the short-line cleanup loop of
`rnx_read_v3_observations`: `for (; jj < n_obs; jj += 8)` pushes the
pending mask and then zero masks, stepping `jj` by eight from wherever
the main loop stopped.  `fuel` bounds the iterations by `n_obs`. -/
def v3MaskTail (nobs jj mask : Nat) (buf : List Nat) : Nat → List Nat
  | 0 => buf
  | f + 1 =>
      if jj < nobs then v3MaskTail nobs (jj + 8) 0 (buf ++ [mask]) f
      else buf

/-- v3Sats reads `n` satellites' body lines, as the outer loop of
`rnx_read_v3_observations` does: three name bytes (the system letter
indexes the observation-count table through its low five bits), the
observation loop, the mask tail, then a mandatory newline. -/
def v3Sats (s : List Char) (n_obs_table : Nat → Nat) (pos : Nat) (st : ObsRecord) :
    Nat → ReadResult ObsRecord
  | 0 => ReadResult.ok st
  | n + 1 =>
      let sv0 := s.getD pos ch0
      let nobs := n_obs_table (sv0.toNat % 32)
      let svn := (((s.getD (pos + 1) ch0).toNat - 48) * 10
        + (s.getD (pos + 2) ch0).toNat - 48) % 256
      let st0 := { st with buffer := st.buffer ++ [sv0.toNat, svn] }
      match v3ObsLoop s nobs 0 (pos + 3) 0 st0 nobs with
      | ReadResult.ok (jj, pos', mask, st') =>
          let st'' := { st' with buffer := v3MaskTail nobs jj mask st'.buffer nobs }
          if s.getD pos' ch0 = '\n' then v3Sats s n_obs_table (pos' + 1) st'' n
          else ReadResult.badFormat
      | ReadResult.badFormat => ReadResult.badFormat
      | ReadResult.hang => ReadResult.hang

/-- rnx_read_v3_observations embeds `rnx_read_v3_observations`
(rinex_parse.c, scalar path) on the body text of an observation
record: `n_sats` satellite lines against the per-system observation
count table. -/
def rnx_read_v3_observations (n_obs_table : Nat → Nat) (n_sats : Nat)
    (s : List Char) : ReadResult ObsRecord :=
  v3Sats s n_obs_table 0 emptyObsRecord n_sats

/-- c1EpochLine is a well-formed v3 epoch header line: year 2020,
month 1, day 1, hour 0, minute 0, seconds 0.0000000 (whose seventh
fractional digit, a zero, sits in column 28), epoch flag '1' in column
31 and one satellite. -/
def c1EpochLine : List Char := ("> 2020  1  1  0  0  0.0000000  1  1").toList

/-- C1: the claim says a successful v3 read reports `epoch.flag` equal
to the column-31 character.  `rnx_read_v3` validates column 31 but
then stores `line[28]`: on `c1EpochLine` (flag '1' in column 31, the
seconds field's trailing '0' in column 28) the accepted epoch carries
flag '0', not '1'. -/
theorem C1_v3_flag_read_from_column_28 :
    rnx_read_v3_epoch c1EpochLine 36 =
      ReadResult.ok ⟨20200101, 0, 0, '0', 1, 0⟩ ∧
    c1EpochLine.getD 31 ch0 = '1' ∧ ('0' : Char) ≠ '1' := by
  exact ⟨rfl, rfl, by decide⟩

/-- c6Field is a present observation field: value 1.000, blank LLI and
SSI. -/
def c6Field : String := "         1.000  "

/-- c6BlankField is a wholly blank 16-byte field ("not observed"). -/
def c6BlankField : String := "                "

/-- c6BodyLine is a v3 observation body line for satellite G01 with
nine declared observation codes: fields 1..7 present, field 8 blank,
field 9 present. -/
def c6BodyLine : List Char :=
  (("G01" ++ c6Field ++ c6Field ++ c6Field ++ c6Field ++ c6Field ++ c6Field
    ++ c6Field ++ c6BlankField ++ c6Field ++ "\n")).toList

/-- c6Table declares nine observation codes for GPS (system letter 'G',
low five bits 7) and none for other systems. -/
def c6Table : Nat → Nat := fun sys => if sys = 7 then 9 else 0

/-- C6: the claim says each satellite contributes two header bytes and
exactly `ceil(n_obs/8)` presence-bitmap bytes, with the total presence
popcount equal to the length of the value arrays.  With `n_obs = 9`
the blank eighth field's `continue` skips the mask push, so the ninth
observation's bit lands in the first mask byte's bit 0 — which was
already set — and only one bitmap byte (0x7F, popcount 7) is emitted
for eight stored values, where the claim requires (9+7)/8 = 2 bitmap
bytes and popcount 8. -/
theorem C6_v3_presence_bitmap_undercount :
    rnx_read_v3_observations c6Table 1 c6BodyLine =
      ReadResult.ok
        ⟨[71, 1, 127], List.replicate 8 (1000 : Int),
          List.replicate 8 ' ', List.replicate 8 ' '⟩ ∧
    popcount8 127 = 7 ∧
    (List.replicate 8 (1000 : Int)).length = 8 ∧ (7 : Nat) ≠ 8 ∧
    [(127 : Nat)].length = 1 ∧ (1 : Nat) ≠ (9 + 7) / 8 := by
  refine ⟨rfl, rfl, rfl, by decide, rfl, by decide⟩

/-- push8 shifts a 64-bit register left one byte and ors in a new byte,
as the `x = (x << 8) | in[...]` steps of transpose.c do (uint64_t
wraps). -/
def push8 (x b : Nat) : Nat := ((x <<< 8) ||| b) % (2 ^ 64)

/-- trU64 embeds the TRANSPOSE_U64 macro of transpose.c: an 8x8 bit
transpose of a 64-bit register by three masked swap rounds.  None of
the shifted masks can reach bit 63, so no reduction mod 2^64 is
needed. -/
def trU64 (x : Nat) : Nat :=
  let x := (x &&& 0xAA55AA55AA55AA55) ||| ((x &&& 0x00AA00AA00AA00AA) <<< 7)
    ||| ((x >>> 7) &&& 0x00AA00AA00AA00AA)
  let x := (x &&& 0xCCCC3333CCCC3333) ||| ((x &&& 0x0000CCCC0000CCCC) <<< 14)
    ||| ((x >>> 14) &&& 0x0000CCCC0000CCCC)
  let x := (x &&& 0xF0F0F0F00F0F0F0F) ||| ((x &&& 0x00000000F0F0F0F0) <<< 28)
    ||| ((x >>> 28) &&& 0x00000000F0F0F0F0)
  x

/-- t32LoadTop is the register-filling loop of `transpose_32_generic`
for the most-significant register of a branch with bound `D` (8, 16,
24 or 32): the first `D - bits` iterations replay byte `ofs` of row 0,
the rest read byte `ofs` of consecutive rows (`in[4*(ii+bits-D)+ofs]`),
exactly as the C pre-loop/main-loop pair does. -/
def t32LoadTop (inp : List Nat) (bits D ofs : Nat) : Nat :=
  (List.range 8).foldl
    (fun x ii =>
      push8 x (inp.getD (if ii < D - bits then ofs else 4 * (ii + bits - D) + ofs) 0)) 0

/-- t32Load is the register-filling loop of `transpose_32_generic` for
a register below the branch bound: both the C pre-loop and main loop
read `in[4*(ii+bits-d)+ofs]` for it. -/
def t32Load (inp : List Nat) (bits d ofs : Nat) : Nat :=
  (List.range 8).foldl
    (fun x ii => push8 x (inp.getD (4 * (ii + bits - d) + ofs) 0)) 0

/-- byteAt extracts the byte of a transposed register that the C
output loop (`for (ii = 7; ii >= 0; --ii, x >>= 8)`) assigns to output
slot `ii`. -/
def byteAt (v ii : Nat) : Nat := (v >>> (8 * (7 - ii))) &&& 255

/-- sext8 sign-extends a byte, as `(int64_t)(x << 56) >> 56` does. -/
def sext8 (b : Nat) : Int := if b < 128 then (b : Int) else (b : Int) - 256

/-- transpose_32_generic embeds `transpose_32_generic` of transpose.c.
Each branch (bits in 1..8, 9..16, 17..24, 25..32) fills one register
per byte column and significance level, bit-transposes each with
TRANSPOSE_U64, and assembles output `j` from byte `j % 8` of the
registers for byte column `j / 8`: the C statement
`out[ii+8*ofs] = ((int64_t)(x << 56) >> shift) | ... | (low & 255)`
is written here as the sign-extended top byte weighted by its level
plus the lower bytes.  Column `j` of the C output array `out[0..31]`
is element `j` of the returned list.  For `bits < 1` the C function
leaves `out` untouched; that case is modelled as zeros and is outside
every claim. -/
def transpose_32_generic (inp : List Nat) (bits : Nat) : List Int :=
  if bits < 1 then List.replicate 32 0
  else if bits ≤ 8 then
    (List.range 32).map fun j =>
      sext8 (byteAt (trU64 (t32LoadTop inp bits 8 (j / 8))) (j % 8))
  else if bits ≤ 16 then
    (List.range 32).map fun j =>
      sext8 (byteAt (trU64 (t32LoadTop inp bits 16 (j / 8))) (j % 8)) * 256
        + (byteAt (trU64 (t32Load inp bits 8 (j / 8))) (j % 8) : Int)
  else if bits ≤ 24 then
    (List.range 32).map fun j =>
      sext8 (byteAt (trU64 (t32LoadTop inp bits 24 (j / 8))) (j % 8)) * 65536
        + (byteAt (trU64 (t32Load inp bits 16 (j / 8))) (j % 8) : Int) * 256
        + (byteAt (trU64 (t32Load inp bits 8 (j / 8))) (j % 8) : Int)
  else
    (List.range 32).map fun j =>
      sext8 (byteAt (trU64 (t32LoadTop inp bits 32 (j / 8))) (j % 8)) * 16777216
        + (byteAt (trU64 (t32Load inp bits 24 (j / 8))) (j % 8) : Int) * 65536
        + (byteAt (trU64 (t32Load inp bits 16 (j / 8))) (j % 8) : Int) * 256
        + (byteAt (trU64 (t32Load inp bits 8 (j / 8))) (j % 8) : Int)

/-- truth is the transpose ground-truth table of transpose_test.c. -/
def truth : List Nat :=
  [0x55555555, 0x33333333, 0x0f0f0f0f, 0x00ff00ff,
   0x0000ffff, 0xaaaaaaaa, 0xcccccccc, 0xf0f0f0f0,
   0xff00ff00, 0xffff0000, 0x0000ffff, 0x00ffff00,
   0x0ff00ff0, 0x3c3c3c3c, 0x66666666, 0xffffffff,
   0x12345678, 0x31415927, 0xcafebabe, 0xcafed00d,
   0x47494638, 0x89504e47, 0x4d546864, 0x2321202f,
   0x7f454c46, 0x25504446, 0x19540119, 0x4a6f7921,
   0x49492a00, 0x4d4d002a, 0x57414433, 0xd0cf11e0]

/-- truthW reads an entry of the truth table as a 32-bit word. -/
def truthW (j : Nat) : Nat := truth.getD j 0

/-- xxRow builds row `ii` of the test input, as transpose_test.c main
does: bit `31 - jj` of the row word is bit `31 - ii` of `truth[jj]`. -/
def xxRow (ii : Nat) : Nat :=
  (List.range 32).foldl
    (fun a jj => a ||| ((truthW jj >>> (31 - ii)) &&& 1) <<< (31 - jj)) 0

/-- input_32 is the 128-byte test matrix `input_32` of transpose_test.c:
row `ii` stored big-endian in bytes `4*ii .. 4*ii+3`. -/
def input_32 : List Nat :=
  (List.range 128).map fun idx => (xxRow (idx / 4) >>> (8 * (3 - idx % 4))) &&& 255

/-- input32Bytes is `input_32` written out byte by byte (the listing
`transpose_test -truth` prints); see `input_32_bytes`. -/
def input32Bytes : List Nat :=
  [7, 193, 52, 1, 131, 195, 58, 159, 69, 199, 65, 192, 193, 197, 192, 163,
   38, 205, 54, 188, 162, 207, 10, 198, 100, 203, 185, 146, 224, 201, 79, 238,
   23, 89, 48, 1, 147, 91, 126, 255, 85, 95, 177, 16, 209, 93, 182, 96,
   54, 85, 56, 29, 178, 87, 178, 181, 116, 83, 48, 17, 240, 81, 73, 159,
   15, 177, 48, 0, 139, 179, 222, 210, 77, 183, 35, 24, 201, 181, 240, 17,
   46, 189, 102, 152, 170, 191, 140, 194, 108, 187, 172, 8, 232, 185, 64, 49,
   31, 41, 32, 1, 155, 43, 134, 193, 93, 47, 235, 23, 217, 45, 168, 34,
   62, 37, 185, 36, 186, 39, 119, 192, 124, 35, 101, 198, 248, 33, 85, 50]

/-- truthInt reads a truth entry as a two's-complement 32-bit integer
(`const int truth[32]`). -/
def truthInt (j : Nat) : Int :=
  if truthW j < 2 ^ 31 then (truthW j : Int) else (truthW j : Int) - 2 ^ 32

/-- truthShifted is the expected transpose output row for `bits = b`:
`truth[j] >> (32 - b)` as a C arithmetic shift of a 32-bit int,
i.e. floor division by 2^(32-b), for each column `j`. -/
def truthShifted (b : Nat) : List Int :=
  (List.range 32).map fun j => Int.fdiv (truthInt j) (2 ^ (32 - b))

/-- input_32_bytes: the constructed test matrix equals its listing. -/
theorem input_32_bytes : input_32 = input32Bytes := by rfl

/-- C3: for every bits `b` in 1..32, the generic 32-column transpose
applied to the fixed test matrix built from the truth constants yields
`out[j] = truth[j] >> (32 - b)` (arithmetic shift of the 32-bit
constant, sign-extended: floor division by 2^(32-b)) for every column
`j` — the transpose ground truth of the spec and transpose_test.c. -/
theorem C3_transpose_32_generic_ground_truth :
    (List.range 32).map (fun k => transpose_32_generic input_32 (k + 1)) =
    (List.range 32).map (fun k => truthShifted (k + 1)) := by
  rw [input_32_bytes]
  rfl

/-- SrnxRes is the outcome of an embedded SOC reader function: `ok`,
SRNX_CORRUPT, or `hang` when the C loop makes no progress (its state
repeats exactly, so it runs forever). -/
inductive SrnxRes (α : Type) where
  | ok (a : α)
  | corrupt
  | hang
  deriving DecidableEq, Repr

/-- zeroEpoch is a calloc-initialized `struct rinex_epoch`. -/
def zeroEpoch : Epoch := ⟨0, 0, 0, ch0, 0, 0⟩

/-- fillSpan is the epoch-span unpacking loop of `srnx_get_epochs`
(rinex_analyze.cc): write `len` epochs starting at `idx`, advancing
`sec_e7` by the interval each tick and carrying into the minute when
the new second count reaches 60 while the previous one was below it.
Returns the updated epoch array and index. -/
def fillSpan (epochs : List Epoch) (idx : Nat) (date hh_mm mm sec_e7 i64 : Int) :
    Nat → List Epoch × Nat
  | 0 => (epochs, idx)
  | len + 1 =>
      let epochs := epochs.set idx { zeroEpoch with
        yyyy_mm_dd := date, hh_mm := hh_mm, sec_e7 := sec_e7 }
      let sec' := sec_e7 + i64
      if sec' ≥ 600000000 ∧ sec_e7 < 600000000 then
        let sec'' := sec' - 600000000
        let hh_mm' := hh_mm + 1
        let mm' := mm + 1
        if mm' ≥ 60 then fillSpan epochs (idx + 1) date (hh_mm' + 40) 0 sec'' i64 len
        else fillSpan epochs (idx + 1) date hh_mm' mm' sec'' i64 len
      else fillSpan epochs (idx + 1) date hh_mm mm sec' i64 len

/-- epocSpanLoop is the epoch-span walk of `srnx_get_epochs`: while
`idx < n_epoch` and the cursor is before the chunk end, read one span
{interval:SLEB128, count:ULEB128, date:ULEB128, time:ULEB128} (through
the embedded, non-advancing `uleb128`), validate each read against the
chunk end as the C code does, and unpack it.  A negative interval is
scaled by -10^7; a two-digit-year date is widened.  If an iteration
leaves both `idx` and the cursor unchanged the C loop repeats that
state forever (`hang`).  `fuel` bounds the iterations; returns the
index, epochs and cursor at loop exit. -/
def epocSpanLoop (payload : List Nat) (endPos n_epoch : Nat) (idx pos : Nat)
    (epochs : List Epoch) : Nat → SrnxRes (Nat × List Epoch × Nat)
  | 0 => SrnxRes.hang
  | fuel + 1 =>
      if idx < n_epoch ∧ pos < endPos then
        let s := sleb128 payload pos
        if s.2 ≥ endPos then SrnxRes.corrupt
        else
          let i64 := if s.1 < 0 then s.1 * (-10000000) else s.1
          let l := uleb128 payload s.2
          if l.2 ≥ endPos ∨ idx + l.1 > n_epoch then SrnxRes.corrupt
          else
            let d := uleb128 payload l.2
            if d.2 ≥ endPos ∨ d.1 > 2147483647 then SrnxRes.corrupt
            else
              let date :=
                if d.1 < 1000000 then
                  if d.1 < 800000 then d.1 + 20000000 else d.1 + 19000000
                else d.1
              let t := uleb128 payload d.2
              if t.2 ≥ endPos ∨ t.1 > 2460610000000 then SrnxRes.corrupt
              else
                let sec_e7 : Int := (t.1 % 1000000000 : Nat)
                let hh_mm : Int := (t.1 / 1000000000 : Nat)
                let mm : Int := hh_mm % 60
                let r := fillSpan epochs idx (date : Nat) hh_mm mm sec_e7 i64 l.1
                if r.2 = idx ∧ t.2 = pos then SrnxRes.hang
                else epocSpanLoop payload endPos n_epoch r.2 t.2 r.1 fuel
      else SrnxRes.ok (idx, epochs, pos)

/-- setClock writes the receiver clock offset into `len` consecutive
epochs starting at `idx` (the C loop writes without a bounds check;
out-of-range writes are dropped here where C would corrupt memory). -/
def setClock (epochs : List Epoch) (idx : Nat) (v : Int) :
    Nat → List Epoch × Nat
  | 0 => (epochs, idx)
  | len + 1 =>
      let epochs :=
        match epochs.get? idx with
        | some e => epochs.set idx { e with clock_offset := v }
        | none => epochs
      setClock epochs (idx + 1) v len

/-- epocClockLoop is the receiver-clock-offset walk of
`srnx_get_epochs`: runs of {value:SLEB128, count:ULEB128} fill
`clock_offset`, with the same progress caveat as `epocSpanLoop`. -/
def epocClockLoop (payload : List Nat) (endPos n_epoch : Nat) (idx pos : Nat)
    (epochs : List Epoch) : Nat → SrnxRes (Nat × List Epoch)
  | 0 => SrnxRes.hang
  | fuel + 1 =>
      if pos < endPos ∧ idx < n_epoch then
        let s := sleb128 payload pos
        if s.2 ≥ endPos then SrnxRes.corrupt
        else
          let l := uleb128 payload s.2
          if l.2 ≥ endPos then SrnxRes.corrupt
          else
            let r := setClock epochs idx s.1 l.1
            if r.2 = idx ∧ l.2 = pos then SrnxRes.hang
            else epocClockLoop payload endPos n_epoch r.2 l.2 r.1 fuel
      else SrnxRes.ok (idx, epochs)

/-- srnx_get_epochs embeds the EPOC-payload decoding of
`srnx_get_epochs` (rinex_analyze.cc), starting where the C function
has located the chunk: ULEB128 epoch count, epoch spans, clock-offset
runs, and a zero tail for the remaining clock offsets (the epochs are
allocated zeroed).  All integer reads go through the embedded
`uleb128`/`sleb128`. -/
def srnx_get_epochs (payload : List Nat) : SrnxRes (List Epoch) :=
  let endPos := payload.length
  let n := uleb128 payload 0
  if n.2 > endPos then SrnxRes.corrupt
  else
    let epochs := List.replicate n.1 zeroEpoch
    match epocSpanLoop payload endPos n.1 0 n.2 epochs (endPos + n.1 + 2) with
    | SrnxRes.ok (_, epochs, pos) =>
        match epocClockLoop payload endPos n.1 0 pos epochs (endPos + n.1 + 2) with
        | SrnxRes.ok (_, epochs) => SrnxRes.ok epochs
        | SrnxRes.corrupt => SrnxRes.corrupt
        | SrnxRes.hang => SrnxRes.hang
    | SrnxRes.corrupt => SrnxRes.corrupt
    | SrnxRes.hang => SrnxRes.hang

/-- c5Payload is the EPOC payload of spec scenario S4: n_epoch = 3 and
a single span {interval = +300000000 (ZigZag-encoded 600000000),
count_minus_1 = 2, date = 20200101, time = 1200000000000}, each field
in its ULEB128 encoding. -/
def c5Payload : List Nat :=
  ulebEncode 3 ++ ulebEncode 600000000 ++ ulebEncode 2 ++ ulebEncode 20200101
    ++ ulebEncode 1200000000000

/-- c5CodeEpochs is what the code actually produces on `c5Payload`:
because `uleb128` never advances past a final byte, every field of the
span re-reads the first payload byte (3), yielding date 20000003,
time 0.0000003s, a 1-second interval and clock offset -1 everywhere. -/
def c5CodeEpochs : List Epoch :=
  [⟨20000003, 0, 3, ch0, 0, -1⟩,
   ⟨20000003, 0, 10000003, ch0, 0, -1⟩,
   ⟨20000003, 0, 20000003, ch0, 0, -1⟩]

/-- C5: the claim says decoding the S4 EPOC chunk yields the epochs
2020-01-01 12:00:00.0, 12:00:30.0 and 12:01:00.0.  The decoder's
broken `uleb128` (it neither accumulates lower groups nor advances the
cursor past a final byte) makes every span field re-read the first
payload byte, so the code returns three epochs of date 20000003 at
0.0000003 s, 1.0000003 s and 2.0000003 s — not the claimed epochs. -/
theorem C5_epoc_decode_contradicts_S4 :
    srnx_get_epochs c5Payload = SrnxRes.ok c5CodeEpochs ∧
    c5CodeEpochs.map (fun e => (e.yyyy_mm_dd, e.hh_mm, e.sec_e7)) ≠
      [(20200101, 1200, 0), (20200101, 1200, 300000000), (20200101, 1201, 0)] := by
  exact ⟨rfl, by decide⟩

/-- RINEX_EXTRA is the stream padding constant of rinex.h: "the extra
length of stream buffers to ease vectorization". -/
def RINEX_EXTRA : Nat := 31

/-- StdioStream models `struct rinex_stream_stdio` (rinex_stdio.c):
the allocation size, the count of real data bytes, the heap buffer
contents (one entry per allocated byte — the readable region), and the
unread remainder of the underlying file. -/
structure StdioStream where
  alloc : Nat
  size : Nat
  buffer : List Nat
  file : List Nat
  deriving DecidableEq, Repr

/-- rinex_stdio_advance embeds `rinex_stdio_advance` (rinex_stdio.c).
`junk` models the unspecified contents `realloc` exposes when the
buffer grows (indexed by absolute buffer offset).  The EINVAL guards,
the `realloc` to exactly `req_size + RINEX_EXTRA`, the `memmove` of
the remaining data to the front, and the `fread` of the missing bytes
are modelled in order; allocation failure and stream I/O errors are
outside the model (the C returns ENOMEM / errno there). -/
def rinex_stdio_advance (junk : Nat → Nat) (s : StdioStream)
    (req_size step : Nat) : Except Nat StdioStream :=
  if req_size > 2147483647 then Except.error 22
  else if step > s.size then Except.error 22
  else
    let size1 := s.size - step
    let alloc' := if s.alloc < req_size + RINEX_EXTRA then req_size + RINEX_EXTRA
      else s.alloc
    let grown :=
      if s.alloc < req_size + RINEX_EXTRA then
        s.buffer.take alloc'
          ++ (List.range (alloc' - s.buffer.length)).map
              (fun k => junk (s.buffer.length + k))
      else s.buffer
    let moved := (List.range grown.length).map fun i =>
      if i < size1 then grown.getD (step + i) 0 else grown.getD i 0
    if req_size > size1 then
      let wanted := req_size - size1
      let nbr := min wanted s.file.length
      let data := s.file.take nbr
      let filled := (List.range moved.length).map fun i =>
        if size1 ≤ i ∧ i < size1 + nbr then data.getD (i - size1) 0
        else moved.getD i 0
      Except.ok ⟨alloc', size1 + nbr, filled, s.file.drop nbr⟩
    else Except.ok ⟨alloc', size1, moved, s.file⟩

/-- StdioInv is the state invariant of the stdio stream: the buffer
holds exactly `alloc` readable bytes, and either the allocation covers
the real data plus RINEX_EXTRA or the stream is still fresh. -/
def StdioInv (s : StdioStream) : Prop :=
  s.buffer.length = s.alloc ∧
    (s.alloc ≥ s.size + RINEX_EXTRA ∨ (s.alloc = 0 ∧ s.size = 0))

/-- c9Junk paints realloc's fresh bytes with the value 1. -/
def c9Junk : Nat → Nat := fun _ => 1

/-- c9Start is a freshly opened stdio stream over a 200-byte file of
sevens. -/
def c9Start : StdioStream := ⟨0, 0, [], List.replicate 200 7⟩

/-- c9After is the stream state after `advance(100, 0)` on `c9Start`:
a 131-byte allocation holding 100 file bytes and 31 junk bytes. -/
def c9After : StdioStream :=
  ⟨131, 100, List.replicate 100 7 ++ List.replicate 31 1, List.replicate 100 7⟩

set_option maxRecDepth 8000 in
/-- C9 counterexample: the claim says after a successful advance the
buffer is readable for `size + PAD` bytes with `PAD ≥ 80` and that all
readable bytes past the real data are zero.  After `advance(100, 0)`
on a fresh stdio stream the allocation is `100 + RINEX_EXTRA = 131`
bytes — smaller than `size + 80 = 180` — and the readable byte at
offset 110 is whatever realloc left there (here 1), not zero. -/
theorem C9_stdio_pad_under_80 :
    rinex_stdio_advance c9Junk c9Start 100 0 = Except.ok c9After ∧
    c9After.buffer.length = 131 ∧ c9After.size = 100 ∧ 131 < 100 + 80 ∧
    (¬ ∃ pad, 80 ≤ pad ∧ c9After.size + pad ≤ c9After.buffer.length) ∧
    c9After.buffer.getD 110 0 = 1 ∧ (1 : Nat) ≠ 0 := by
  refine ⟨by rfl, by rfl, by rfl, by decide, ?_, by rfl, by decide⟩
  rintro ⟨p, h1, h2⟩
  rw [show c9After.size = 100 from rfl,
    show c9After.buffer.length = 131 from by rfl] at h2
  omega

/-- C9 (amended): for the stdio stream, every successful
`advance(req_size, step)` from a state satisfying the stream invariant
leaves the buffer readable (allocated) for at least
`size + RINEX_EXTRA` bytes, with `RINEX_EXTRA = 31` — not 80, and with
no guarantee about the padding bytes' contents. -/
theorem C9_stdio_advance_readable_pad31 (junk : Nat → Nat)
    (s s' : StdioStream) (req_size step : Nat) (hInv : StdioInv s)
    (h : rinex_stdio_advance junk s req_size step = Except.ok s') :
    s'.buffer.length = s'.alloc ∧ s'.alloc ≥ s'.size + RINEX_EXTRA := by
  obtain ⟨hlen, hpad⟩ := hInv
  unfold rinex_stdio_advance at h
  by_cases h1 : req_size > 2147483647
  · simp [h1] at h
  by_cases h2 : step > s.size
  · simp [h1, h2] at h
  simp only [if_neg h1, if_neg h2] at h
  by_cases h3 : s.alloc < req_size + RINEX_EXTRA
  · simp only [if_pos h3] at h
    by_cases h4 : req_size > s.size - step
    · simp only [if_pos h4] at h
      injection h with h
      subst h
      refine ⟨?_, ?_⟩
      · simp [List.length_map, List.length_range, List.length_append,
          List.length_take, hlen]
        omega
      · simp only [RINEX_EXTRA] at *
        omega
    · simp only [if_neg h4] at h
      injection h with h
      subst h
      refine ⟨?_, ?_⟩
      · simp [List.length_map, List.length_range, List.length_append,
          List.length_take, hlen]
        omega
      · simp only [RINEX_EXTRA] at *
        omega
  · simp only [if_neg h3] at h
    by_cases h4 : req_size > s.size - step
    · simp only [if_pos h4] at h
      injection h with h
      subst h
      refine ⟨?_, ?_⟩
      · simp [List.length_map, List.length_range, hlen]
      · simp only [RINEX_EXTRA] at *
        omega
    · simp only [if_neg h4] at h
      injection h with h
      subst h
      refine ⟨?_, ?_⟩
      · simp [List.length_map, List.length_range, hlen]
      · simp only [RINEX_EXTRA] at *
        omega

set_option maxRecDepth 8000 in
/-- Witness for C9 (amended): the padded-readability bound holds after
the concrete `advance(100, 0)` from a fresh stdio stream. -/
theorem C9_stdio_advance_readable_pad31_witness :
    c9After.buffer.length = c9After.alloc ∧
    c9After.alloc ≥ c9After.size + RINEX_EXTRA :=
  C9_stdio_advance_readable_pad31 c9Junk c9Start c9After 100 0
    ⟨rfl, Or.inr ⟨rfl, rfl⟩⟩ (by rfl)

/-- pfTrail_ne_hang: the trailing loop of `parse_fixed` terminates
when none of the characters it can visit is a newline. -/
theorem pfTrail_ne_hang (s : List Char) (start : Nat) :
    ∀ (fuel ii : Nat) (accum : Int),
      (∀ k, ii ≤ k → k < ii + fuel → s.getD (start + k) ch0 ≠ '\n') →
      pfTrail s start ii accum fuel ≠ Fixed.hang := by
  intro fuel
  induction fuel with
  | zero => intro ii accum _ h; simp [pfTrail] at h
  | succ f ih =>
      intro ii accum hk
      unfold pfTrail
      have hnl : s.getD (start + ii) ch0 ≠ '\n' := hk ii le_rfl (by omega)
      simp only [if_neg hnl]
      split
      · exact ih (ii + 1) (accum * 10) (fun k h1 h2 => hk k (by omega) (by omega))
      · simp

/-- parse_fixed_ne_hang: `parse_fixed` terminates on every field that
contains no newline character. -/
theorem parse_fixed_ne_hang (s : List Char) (start width frac : Nat)
    (h : ∀ k, k < width → s.getD (start + k) ch0 ≠ '\n') :
    parse_fixed s start width frac ≠ Fixed.hang := by
  simp only [parse_fixed]
  split
  · simp
  · next accum heq =>
      split
      · generalize pfFrac s start (width - frac - 1 + 1) accum
          (width - (width - frac - 1 + 1)) = p
        have hne := pfTrail_ne_hang s start (width - p.1) p.1 p.2
          (fun k h1 h2 => h k (by omega))
        cases hpt : pfTrail s start p.1 p.2 (width - p.1) with
        | ok a => simp [hpt]
        | einval => simp [hpt]
        | hang => exact absurd hpt hne
      · simp

/-- nthNLEnd is the newline scan of `rnx_get_newlines` (rinex_parse.c):
the index one past the n-th newline of the text, or `none` when there
are fewer than `n` newlines (the C code then reports EOF for a
record starting at the buffer origin) — also for `n = 0`, where the C
scan never hits its return and likewise falls through to EOF. -/
def nthNLEnd : List Char → Nat → Option Nat
  | _, 0 => none
  | [], _ + 1 => none
  | c :: cs, n + 1 =>
      if c = '\n' then
        if n = 0 then some 1 else (nthNLEnd cs n).map (· + 1)
      else (nthNLEnd cs (n + 1)).map (· + 1)

/-- rnx_get_newlines embeds `rnx_get_newlines` for a record that
starts at the buffer origin (`*p_whence = 0`): it needs
`n_header + n_body` newlines, reports the offset just past the last
one and the body offset just past the `n_header`-th (0 when
`n_header = 0`, matching the caller's initialization of `body_ofs`).
The single C scan computes both offsets in one pass; the two
`nthNLEnd` walks here return the same indices. -/
def rnx_get_newlines (text : List Char) (n_header n_body : Nat) :
    Option (Nat × Nat) :=
  match nthNLEnd text (n_header + n_body) with
  | none => none
  | some r =>
      some ((if n_header = 0 then 0 else (nthNLEnd text n_header).getD 0), r)

/-- v2ObsLoop is the per-satellite observation loop of
`rnx_read_v2_observations` (rinex_parse.c).  Unlike the v3 loop, the
`goto eol` paths (newline pending, blank field) still reach the
presence-byte push and the five-fields-per-line newline handling, so
every `jj` updates the bitmap and every fifth field requires a
newline.  `fuel` is `n_obs - jj`; returns the input position and
record at loop exit. -/
def v2ObsLoop (s : List Char) (nobs : Nat) (jj pos mask : Nat) (st : ObsRecord) :
    Nat → ReadResult (Nat × ObsRecord)
  | 0 => ReadResult.ok (pos, st)
  | f + 1 =>
      let step :
          ReadResult (Nat × Nat × ObsRecord) :=
        if s.getD pos ch0 = '\n' then ReadResult.ok (pos, mask, st)
        else if blank16 s pos then ReadResult.ok (pos + 16, mask, st)
        else
          match rnx_parse_obs s pos with
          | none => ReadResult.badFormat
          | some (v, l, si, pos') =>
              ReadResult.ok (pos', mask ||| (1 <<< (jj % 8)),
                { st with obs := st.obs ++ [v], lli := st.lli ++ [l],
                          ssi := st.ssi ++ [si] })
      match step with
      | ReadResult.badFormat => ReadResult.badFormat
      | ReadResult.hang => ReadResult.hang
      | ReadResult.ok (pos', mask', st') =>
          let push := jj + 1 = nobs ∨ jj % 8 = 7
          let st'' := if push then { st' with buffer := st'.buffer ++ [mask'] }
            else st'
          let mask'' := if push then 0 else mask'
          if jj + 1 = nobs ∨ jj % 5 = 4 then
            if s.getD pos' ch0 = '\n' then
              v2ObsLoop s nobs (jj + 1) (pos' + 1) mask'' st'' f
            else ReadResult.badFormat
          else v2ObsLoop s nobs (jj + 1) pos' mask'' st'' f

/-- v2Sats is the satellite loop of `rnx_read_v2_observations`: the
satellite name is read from the epoch header line (columns 32.. plus
three bytes per satellite, twelve names per line, continuation lines
reached through the next newline), then that satellite's data lines
are consumed from the body. -/
def v2Sats (s : List Char) (n_obs_table : Nat → Nat) (ii epos pos : Nat)
    (st : ObsRecord) : Nat → ReadResult ObsRecord
  | 0 => ReadResult.ok st
  | n + 1 =>
      let svPos := epos + 32 + 3 * (ii % 12)
      let sv0 := s.getD svPos ch0
      let nobs := n_obs_table (sv0.toNat % 32)
      let svn := (((s.getD (svPos + 1) ch0).toNat - 48) * 10
        + (s.getD (svPos + 2) ch0).toNat - 48) % 256
      let epos' := if ii % 12 = 11 then (nthNLEnd (s.drop epos) 1).getD 0 + epos
        else epos
      let st0 := { st with buffer := st.buffer ++ [sv0.toNat, svn] }
      match v2ObsLoop s nobs 0 pos 0 st0 nobs with
      | ReadResult.ok (pos', st') => v2Sats s n_obs_table (ii + 1) epos' pos' st' n
      | ReadResult.badFormat => ReadResult.badFormat
      | ReadResult.hang => ReadResult.hang

/-- rnx_read_v2_observations embeds `rnx_read_v2_observations`
(rinex_parse.c, scalar path): `n_sats` satellites named on the epoch
header line(s) starting at `epochPos`, data lines starting at
`bodyPos`. -/
def rnx_read_v2_observations (n_obs_table : Nat → Nat) (n_sats : Nat)
    (s : List Char) (epochPos bodyPos : Nat) : ReadResult ObsRecord :=
  v2Sats s n_obs_table 0 epochPos bodyPos emptyObsRecord n_sats

/-- V2Read is a successful `rnx_read_v2` outcome: an observation
record, or a special-event record whose body (the C code copies from
the epoch line through the last event line) is kept verbatim. -/
inductive V2Read where
  | obsRec (epoch : Epoch) (st : ObsRecord)
  | eventRec (epoch : Epoch) (body : List Char)
  deriving DecidableEq, Repr

/-- V2Res is the outcome of an embedded `rnx_read_v2` call: success,
EOF at a record boundary, RINEX_ERR_BAD_FORMAT, or `hang` (inherited
from a diverging `parse_fixed`). -/
inductive V2Res where
  | ok (r : V2Read)
  | eof
  | badFormat
  | hang
  deriving DecidableEq, Repr

/-- rnx_read_v2 embeds `rnx_read_v2` (rinex_parse.c) for one record
whose text starts at the buffer origin.  The epoch-line fields are
parsed by the short-circuit chain
`flag-range || yy || mm || dd || hh || min || n_sats || seconds`:
a failing link leaves its own and every later field at zero, and for
epoch flags '2'..'5' a failed chain is tolerated rather than
RINEX_ERR_BAD_FORMAT.  The two-digit year is widened (+2000 below 80,
else +1900) unconditionally.  Then the clock-offset field is checked
by line length, and the record body is read according to the flag
stored from `line[28]`. -/
def rnx_read_v2 (n_obs_table : Nat → Nat) (text : List Char) : V2Res :=
  match rnx_get_newlines text 0 1 with
  | none => V2Res.eof
  | some (_, res) =>
      if res < 33 then V2Res.badFormat
      else
        let line := text
        let line_len := res - 1
        let flagc := line.getD 28 ch0
        let r0 := decide (48 ≤ flagc.toNat ∧ flagc.toNat ≤ 54)
        let pyy := parse_uint line 1 2
        let r1 := r0 && pyy.isSome
        let pmm := parse_uint line 4 2
        let r2 := r1 && pmm.isSome
        let pdd := parse_uint line 7 2
        let r3 := r2 && pdd.isSome
        let phh := parse_uint line 10 2
        let r4 := r3 && phh.isSome
        let pmin := parse_uint line 13 2
        let r5 := r4 && pmin.isSome
        let pns := parse_uint line 29 3
        let r6 := r5 && pns.isSome
        let psec := parse_fixed line 15 11 7
        if r6 && decide (psec = Fixed.hang) then V2Res.hang
        else
          let r7 := r6 && decide (psec ≠ Fixed.einval)
          let yy := if r0 then pyy.getD 0 else 0
          let mm := if r1 then pmm.getD 0 else 0
          let dd := if r2 then pdd.getD 0 else 0
          let hh := if r3 then phh.getD 0 else 0
          let mn := if r4 then pmin.getD 0 else 0
          let ns := if r5 then pns.getD 0 else 0
          let sec : Int := if r6 then
              match psec with
              | Fixed.ok v => v
              | _ => 0
            else 0
          if !r7 && decide (flagc.toNat < 50 ∨ flagc.toNat = 54) then
            V2Res.badFormat
          else
            let yy' := yy + (if yy < 80 then 2000 else 1900)
            let epoch : Epoch :=
              { yyyy_mm_dd := ((yy' * 100 + mm) * 100 + dd : Nat)
                hh_mm := (hh * 100 + mn : Nat)
                sec_e7 := sec
                flag := flagc
                n_sats := ns
                clock_offset := 0 }
            let clk : ReadResult Int :=
              if line_len ≤ 68 then ReadResult.ok 0
              else if line_len = 80 then liftFixed (parse_fixed line 68 12 9)
              else ReadResult.badFormat
            match clk with
            | ReadResult.badFormat => V2Res.badFormat
            | ReadResult.hang => V2Res.hang
            | ReadResult.ok clock =>
                let epoch := { epoch with clock_offset := clock }
                if flagc = '0' ∨ flagc = '1' ∨ flagc = '6' then
                  let mlines := (n_obs_table 0 + 4) / 5
                  match rnx_get_newlines text ((ns + 11) / 12) (ns * mlines) with
                  | none => V2Res.badFormat
                  | some (body_ofs, _) =>
                      match rnx_read_v2_observations n_obs_table ns text 0
                          body_ofs with
                      | ReadResult.ok st => V2Res.ok (V2Read.obsRec epoch st)
                      | ReadResult.badFormat => V2Res.badFormat
                      | ReadResult.hang => V2Res.hang
                else if 50 ≤ flagc.toNat ∧ flagc.toNat ≤ 53 then
                  match rnx_get_newlines text 0 (ns + 1) with
                  | none => V2Res.badFormat
                  | some (_, res2) =>
                      V2Res.ok (V2Read.eventRec epoch (text.take res2))
                else V2Res.badFormat

/-- nthNLEnd_cons is the one-step unfolding of the newline scan. -/
theorem nthNLEnd_cons (c : Char) (cs : List Char) (n : Nat) :
    nthNLEnd (c :: cs) (n + 1) =
      if c = '\n' then
        if n = 0 then some 1 else (nthNLEnd cs n).map (· + 1)
      else (nthNLEnd cs (n + 1)).map (· + 1) := rfl

/-- nthNLEnd_first: a line without newlines followed by a newline puts
the first line end just past that newline. -/
theorem nthNLEnd_first (line rest : List Char) (h : ∀ c ∈ line, c ≠ '\n') :
    nthNLEnd (line ++ '\n' :: rest) 1 = some (line.length + 1) := by
  induction line with
  | nil =>
      rw [List.nil_append, show (1 : Nat) = 0 + 1 from rfl, nthNLEnd_cons]
      simp
  | cons c cs ih =>
      have hc : c ≠ '\n' := h c (by simp)
      rw [List.cons_append, show (1 : Nat) = 0 + 1 from rfl, nthNLEnd_cons,
        if_neg hc]
      simp only [Nat.zero_add]
      rw [ih (fun x hx => h x (by simp [hx]))]
      simp

/-- nthNLEnd_succ: scanning past the first line shifts later line ends
by the line length plus one. -/
theorem nthNLEnd_succ (line rest : List Char) (n : Nat) (hn : 1 ≤ n)
    (h : ∀ c ∈ line, c ≠ '\n') :
    nthNLEnd (line ++ '\n' :: rest) (n + 1) =
      (nthNLEnd rest n).map (· + (line.length + 1)) := by
  induction line with
  | nil =>
      rw [List.nil_append, nthNLEnd_cons, if_pos rfl, if_neg (by omega)]
      cases nthNLEnd rest n <;> simp
  | cons c cs ih =>
      have hc : c ≠ '\n' := h c (by simp)
      rw [List.cons_append, nthNLEnd_cons, if_neg hc,
        ih (fun x hx => h x (by simp [hx]))]
      cases nthNLEnd rest n <;> simp <;> omega

/-- nthNLEnd_isSome: a text containing at least n newlines has an
n-th line end. -/
theorem nthNLEnd_isSome (t : List Char) (n : Nat) (h1 : 1 ≤ n)
    (h2 : n ≤ t.count '\n') : (nthNLEnd t n).isSome := by
  induction t generalizing n with
  | nil => simp at h2; omega
  | cons c cs ih =>
      cases n with
      | zero => omega
      | succ m =>
          cases m with
          | zero =>
              rw [nthNLEnd_cons]
              by_cases hc : c = '\n'
              · simp [hc]
              · rw [if_neg hc]
                have he : (c :: cs).count '\n' = cs.count '\n' := by
                  rw [List.count_cons]
                  simp [Ne.symm hc, hc]
                rw [he] at h2
                have := ih 1 le_rfl h2
                simpa using this
          | succ k =>
              rw [nthNLEnd_cons]
              by_cases hc : c = '\n'
              · rw [if_pos hc, if_neg (by omega)]
                have he : (c :: cs).count '\n' = cs.count '\n' + 1 := by
                  rw [List.count_cons]
                  simp [hc]
                rw [he] at h2
                have := ih (k + 1) (by omega) (by omega)
                simpa using this
              · rw [if_neg hc]
                have he : (c :: cs).count '\n' = cs.count '\n' := by
                  rw [List.count_cons]
                  simp [Ne.symm hc, hc]
                rw [he] at h2
                have := ih (k + 2) (by omega) h2
                simpa using this

/-- v2LenientEpoch is the claim-side description of the lenient v2
epoch reporting: each epoch-header field is its parsed value when its
own parse and every earlier one in the reader's chain
(yy, mm, dd, hh, min, n_sats, seconds) succeeded, and the zero default
otherwise; the two-digit year is widened (+2000 below 80, else +1900)
in either case, and the reported flag is the column-28 character.  It
mirrors the parse chain of `rnx_read_v2` with the flag-range check
(always true for flags '2'..'5') dropped. -/
def v2LenientEpoch (line : List Char) : Epoch :=
  let flagc := line.getD 28 ch0
  let pyy := parse_uint line 1 2
  let r1 := pyy.isSome
  let pmm := parse_uint line 4 2
  let r2 := r1 && pmm.isSome
  let pdd := parse_uint line 7 2
  let r3 := r2 && pdd.isSome
  let phh := parse_uint line 10 2
  let r4 := r3 && phh.isSome
  let pmin := parse_uint line 13 2
  let r5 := r4 && pmin.isSome
  let pns := parse_uint line 29 3
  let r6 := r5 && pns.isSome
  let psec := parse_fixed line 15 11 7
  let yy := pyy.getD 0
  let mm := if r1 then pmm.getD 0 else 0
  let dd := if r2 then pdd.getD 0 else 0
  let hh := if r3 then phh.getD 0 else 0
  let mn := if r4 then pmin.getD 0 else 0
  let ns := if r5 then pns.getD 0 else 0
  let sec : Int := if r6 then
      match psec with
      | Fixed.ok v => v
      | _ => 0
    else 0
  let yy' := yy + (if yy < 80 then 2000 else 1900)
  { yyyy_mm_dd := ((yy' * 100 + mm) * 100 + dd : Nat)
    hh_mm := (hh * 100 + mn : Nat)
    sec_e7 := sec
    flag := flagc
    n_sats := ns
    clock_offset := 0 }

/-- C10: for every v2 record whose flag column (column 28) holds
'2'..'5', on an accepted line geometry (length 32..68 before the
newline) and with enough body lines for the reported satellite count,
`read()` returns Success no matter what the date, time, seconds and
satellite-count fields hold, and the reported epoch carries the
lenient parsed-or-zero fields with the year convention applied. -/
theorem C10_v2_event_flags_lenient (tbl : Nat → Nat) (line rest text : List Char)
    (htext : text = line ++ '\n' :: rest)
    (hNoNL : ∀ c ∈ line, c ≠ '\n')
    (hLen : 32 ≤ line.length) (hLen68 : line.length ≤ 68)
    (hFlag : 50 ≤ (text.getD 28 ch0).toNat ∧ (text.getD 28 ch0).toNat ≤ 53)
    (hBody : (v2LenientEpoch text).n_sats ≤ rest.count '\n') :
    ∃ body, rnx_read_v2 tbl text =
      V2Res.ok (V2Read.eventRec (v2LenientEpoch text) body) := by
  subst htext
  have hlinene : ∀ k, k < line.length →
      (line ++ '\n' :: rest).getD k ch0 ≠ '\n' := by
    intro k hk
    rw [List.getD_append _ _ _ _ hk, List.getD_eq_getElem _ _ hk]
    exact hNoNL _ (List.getElem_mem hk)
  have hsecne : parse_fixed (line ++ '\n' :: rest) 15 11 7 ≠ Fixed.hang :=
    parse_fixed_ne_hang _ 15 11 7 (fun k hk => hlinene (15 + k) (by omega))
  have h1 : nthNLEnd (line ++ '\n' :: rest) (0 + 1) = some (line.length + 1) := by
    rw [Nat.zero_add]
    exact nthNLEnd_first line rest hNoNL
  have hr0 : decide (48 ≤ ((line ++ '\n' :: rest).getD 28 ch0).toNat ∧
      ((line ++ '\n' :: rest).getD 28 ch0).toNat ≤ 54) = true := by
    rw [decide_eq_true_eq]
    omega
  simp only [rnx_read_v2, rnx_get_newlines, h1]
  rw [if_neg (by omega : ¬(line.length + 1 < 33))]
  have hd : decide (parse_fixed (line ++ '\n' :: rest) 15 11 7 = Fixed.hang)
      = false := decide_eq_false hsecne
  have hd2 : decide (((line ++ '\n' :: rest).getD 28 ch0).toNat < 50 ∨
      ((line ++ '\n' :: rest).getD 28 ch0).toNat = 54) = false := by
    rw [decide_eq_false_iff_not]
    omega
  simp only [hr0, Bool.true_and, hd, hd2, Bool.and_false, Bool.false_eq_true,
    if_false, Nat.add_sub_cancel]
  rw [if_pos hLen68]
  have hobs : ¬((line ++ '\n' :: rest).getD 28 ch0 = '0' ∨
      (line ++ '\n' :: rest).getD 28 ch0 = '1' ∨
      (line ++ '\n' :: rest).getD 28 ch0 = '6') := by
    rintro (h | h | h) <;> rw [h] at hFlag <;> exact absurd hFlag (by decide)
  simp only [if_neg hobs, if_pos hFlag]
  have hscan : ∃ r, nthNLEnd (line ++ '\n' :: rest)
      (0 + ((v2LenientEpoch (line ++ '\n' :: rest)).n_sats + 1)) = some r := by
    rw [Nat.zero_add]
    cases hn : (v2LenientEpoch (line ++ '\n' :: rest)).n_sats with
    | zero => exact ⟨_, nthNLEnd_first line rest hNoNL⟩
    | succ m =>
        rw [hn] at hBody
        have hsome := nthNLEnd_isSome rest (m + 1) (by omega) hBody
        rw [nthNLEnd_succ line rest (m + 1) (by omega) hNoNL]
        obtain ⟨r, hr⟩ := Option.isSome_iff_exists.mp hsome
        exact ⟨r + (line.length + 1), by rw [hr]; rfl⟩
  obtain ⟨r2, hscan⟩ := hscan
  rw [show (if ((parse_uint (line ++ '\n' :: rest) 1 2).isSome &&
        (parse_uint (line ++ '\n' :: rest) 4 2).isSome &&
        (parse_uint (line ++ '\n' :: rest) 7 2).isSome &&
        (parse_uint (line ++ '\n' :: rest) 10 2).isSome &&
        (parse_uint (line ++ '\n' :: rest) 13 2).isSome) = true then
      (parse_uint (line ++ '\n' :: rest) 29 3).getD 0
    else 0) = (v2LenientEpoch (line ++ '\n' :: rest)).n_sats from rfl]
  rw [hscan]
  exact ⟨_, rfl⟩

/-- c10Line is a v2 epoch line with flag '3' in column 28 whose year
field is malformed ("XX"). -/
def c10Line : List Char := (" XX  1 15  3 17  0.0000000  3  1").toList

/-- c10Text is the record text: the malformed epoch line and nothing
after its newline. -/
def c10Text : List Char := c10Line ++ '\n' :: []

/-- Witness for C10: the lenient-event theorem applied to a concrete
record with a malformed year field and flag '3'. -/
theorem C10_v2_event_flags_lenient_witness :
    ∃ body, rnx_read_v2 (fun _ => 0) c10Text =
      V2Res.ok (V2Read.eventRec (v2LenientEpoch c10Text) body) :=
  C10_v2_event_flags_lenient (fun _ => 0) c10Line [] c10Text rfl
    (by decide) (by decide) (by decide) (by decide) (by decide)

end Srnx
